import Mathlib

/-
Verification of the bitkit-backup-client request/response protocol core.

Shallow embedding of:
  - src/comms-protocol.js  (SlashCommsProtocol: nextId, waitForResponse,
    pendingComplete, send, _getSignature, _verifySignature,
    _generateMessageToHash, handleRequest)
  - src/backup-protocol.js (BackupProtocol: messages list, handleRequest
    signature gate, _requestResponse message construction, _validateCategory)

Byte strings are lists of naturals; the keyed hash sodium.crypto_generichash
is abstracted as a function parameter H : key -> message -> digest.
The stateful tracker (this.pending, this.nextMessageId, the setTimeout timers
and the per-request Promise) is modelled as an explicit state machine whose
events are the calls the runtime can make.
-/

set_option maxRecDepth 4000

namespace BackupClient

/-- Byte strings (Buffer contents) are modelled as lists of naturals. -/
abbrev Bytes := List Nat

/-- ASCII bytes of the decimal rendering of a natural number: models the JS
template interpolation of a timestamp followed by Buffer.from. -/
def decimalBytes (n : Nat) : Bytes :=
  (Nat.toDigits 10 n).map Char.toNat

/-- comms-protocol.js _generateMessageToHash: concatenates the transcript bytes
with the decimal rendering of the timestamp. -/
def generateMessageToHash (msg : Bytes) (timestamp : Nat) : Bytes :=
  msg ++ decimalBytes timestamp

/-- Hex rendering of a byte list, one high nibble and one low nibble per byte.
Models Buffer.toString with hex encoding; each hex character is represented by
its numeric digit value (the character set 0-9a-f is in bijection with 0..15,
so string equality of hex strings coincides with equality of these lists). -/
def hexDigits : Bytes → Bytes
  | [] => []
  | b :: rest => b / 16 :: b % 16 :: hexDigits rest

/-- Wire shape of the optional signature field of a message. -/
structure Signature where
  timestamp : Nat
  hash : Bytes
deriving DecidableEq

/-- comms-protocol.js _getSignature. H abstracts the keyed 32-byte generic
hash (sodium.crypto_generichash with key = secret); now is Date.now(). -/
def getSignature (H : Bytes → Bytes → Bytes) (handshakeHash secret : Bytes)
    (now : Nat) : Signature :=
  { timestamp := now,
    hash := hexDigits (H secret (generateMessageToHash handshakeHash now)) }

/-- comms-protocol.js _verifySignature: recomputes the keyed hash from the
verifier transcript and the timestamp carried in the signature, and compares
the hex renderings for exact equality. Total, returns a Bool. -/
def verifySignature (H : Bytes → Bytes → Bytes) (handshakeHash secret : Bytes)
    (sig : Signature) : Bool :=
  hexDigits (H secret (generateMessageToHash handshakeHash sig.timestamp)) == sig.hash

/-- A concrete injective keyed hash used to instantiate theorems that are
parametric in H: it tags the key with its length so that (key, message) can be
recovered from the output. -/
def lenTagHash (key msg : Bytes) : Bytes :=
  key.length :: (key ++ msg)

/-- comms-protocol.js: one element of this.pending. The success and failed
closures stored in the entry are modelled by the promise, timer and
call-counter maps of the tracker state, keyed by msgId. -/
structure PendingEntry where
  msgId : Nat
  expires : Nat
deriving DecidableEq

/-- The two shapes of CommsError a waiter can be rejected with: the timeout
error built in waitForResponse (its message carries ms) or the wrapper around
a remote-reported error object built in pendingComplete. -/
inductive CommsErr (E : Type) where
  | timedOut (ms : Nat)
  | remote (e : E)
deriving DecidableEq

/-- State of one JS Promise: it settles at most once; resolve and reject on an
already-settled promise are no-ops. -/
inductive PState (M E : Type) where
  | waiting
  | fulfilled (m : M)
  | rejected (e : CommsErr E)
deriving DecidableEq

/-- Point update of a map keyed by naturals. -/
def updF {α : Type} (f : Nat → α) (i : Nat) (a : α) : Nat → α :=
  fun j => if j = i then a else f j

/-- State of one SlashCommsProtocol instance: the id counter, the pending
list, and per-msgId the Promise state, the uncancelled-unfired timer (storing
the ms argument of its setTimeout), and counters of how many times the pending
entry success and failed closures have been invoked. -/
structure TrackerState (M E : Type) where
  nextMessageId : Nat
  pending : List PendingEntry
  promise : Nat → PState M E
  timers : Nat → Option Nat
  successCalls : Nat → Nat
  failedCalls : Nat → Nat

/-- comms-protocol.js nextId: increments this.nextMessageId and returns it.
First component is the returned id, second the updated counter. -/
def nextId (n : Nat) : Nat × Nat :=
  (n + 1, n + 1)

/-- Constructor state: nextMessageId = 1, empty pending list, no waiter. -/
def initState (M E : Type) : TrackerState M E :=
  { nextMessageId := 1
    pending := []
    promise := fun _ => PState.waiting
    timers := fun _ => none
    successCalls := fun _ => 0
    failedCalls := fun _ => 0 }

/-- Settling a JS promise: the first outcome wins, later ones are no-ops. -/
def settle {M E : Type} (p : PState M E) (o : PState M E) : PState M E :=
  match p with
  | PState.waiting => o
  | PState.fulfilled m => PState.fulfilled m
  | PState.rejected e => PState.rejected e

/-- The events the runtime can deliver to one tracker instance:
request models _requestResponse taking a fresh id via nextId and registering a
waiter via waitForResponse(id, ms) at wall-clock time now; fire models the
setTimeout callback of the waiter for id running; complete models a call to
pendingComplete(id, msg, err) at wall-clock time now. -/
inductive Event (M E : Type) where
  | request (now ms : Nat)
  | fire (id : Nat)
  | complete (id : Nat) (msg : M) (err : Option E) (now : Nat)

/-- The filter predicate of pendingComplete:
this.pending.filter((p) => p.msgId !== id && p.expires >= now). -/
def keepEntry (id now : Nat) (p : PendingEntry) : Bool :=
  (p.msgId != id) && decide (now ≤ p.expires)

/-- One step of the tracker, as the source performs it.
request: waitForResponse pushes { msgId, expires: now + ms, success, failed }
and starts a timer; the new Promise is waiting.
fire: the timer callback calls reject(new CommsError(timed out)) directly; it
does not touch this.pending and it does not run the failed closure.
complete: pendingComplete finds the entry by id; if absent it does nothing;
if present it runs failed(err) when err is truthy else success(msg) (each of
which clears the timer and settles the promise) and then filters the pending
list, dropping the target id and every entry whose deadline has passed. -/
def step {M E : Type} (s : TrackerState M E) : Event M E → TrackerState M E
  | Event.request now ms =>
      { nextMessageId := (nextId s.nextMessageId).2
        pending := s.pending ++ [{ msgId := (nextId s.nextMessageId).1, expires := now + ms }]
        promise := updF s.promise (nextId s.nextMessageId).1 PState.waiting
        timers := updF s.timers (nextId s.nextMessageId).1 (some ms)
        successCalls := s.successCalls
        failedCalls := s.failedCalls }
  | Event.fire id =>
      match s.timers id with
      | none => s
      | some ms =>
          { s with
            timers := updF s.timers id none
            promise := updF s.promise id
              (settle (s.promise id) (PState.rejected (CommsErr.timedOut ms))) }
  | Event.complete id msg err now =>
      match s.pending.find? (fun p => p.msgId == id) with
      | none => s
      | some _ =>
          match err with
          | some e =>
              { s with
                pending := s.pending.filter (keepEntry id now)
                timers := updF s.timers id none
                promise := updF s.promise id
                  (settle (s.promise id) (PState.rejected (CommsErr.remote e)))
                failedCalls := updF s.failedCalls id (s.failedCalls id + 1) }
          | none =>
              { s with
                pending := s.pending.filter (keepEntry id now)
                timers := updF s.timers id none
                promise := updF s.promise id
                  (settle (s.promise id) (PState.fulfilled msg))
                successCalls := updF s.successCalls id (s.successCalls id + 1) }

/-- Run a trace of events from the constructor state. -/
def run {M E : Type} (tr : List (Event M E)) : TrackerState M E :=
  tr.foldl step (initState M E)

/-- Invariant of reachable tracker states. -/
def Inv {M E : Type} (s : TrackerState M E) : Prop :=
  (∀ p ∈ s.pending, p.msgId ≤ s.nextMessageId) ∧
  s.pending.Pairwise (fun a b => a.msgId ≠ b.msgId) ∧
  (∀ id, s.successCalls id + s.failedCalls id ≤ 1) ∧
  (∀ p ∈ s.pending, s.successCalls p.msgId = 0 ∧ s.failedCalls p.msgId = 0) ∧
  (∀ id, s.nextMessageId < id →
    s.successCalls id = 0 ∧ s.failedCalls id = 0 ∧
    s.promise id = PState.waiting ∧ s.timers id = none)

/-- k-fold iteration of nextId on the id counter, starting from start. -/
def counterAfter (start : Nat) : Nat → Nat
  | 0 => start
  | k + 1 => (nextId (counterAfter start k)).2

/-- Value returned by the k-th call (0-indexed) of nextId when the counter
starts at start. -/
def idAt (start k : Nat) : Nat :=
  (nextId (counterAfter start k)).1

/-- Concrete traces used to instantiate the tracker theorems. -/
def trReq : List (Event Nat Nat) := [Event.request 0 50]

def trTimeout : List (Event Nat Nat) := [Event.request 0 50, Event.fire 2]

/-- Inbound message shape: the signature field is optional on the wire
(comms-protocol.js header comment; handleRequest tests message.signature). -/
structure InMessage (P : Type) where
  msgId : Nat
  signature : Option Signature
  params : P

/-- One entry of the messages getter: only the name takes part in the send
index computation (description, encoding and onmessage are not consulted). -/
structure MessageDecl where
  name : String
deriving DecidableEq

/-- backup-protocol.js messages getter: the seven message declarations of the
protocol, in source order. -/
def backupMessages : List MessageDecl :=
  [ { name := "recentBackups.request" }
    , { name := "recentBackups.response" }
    , { name := "backupData.request" }
    , { name := "backupData.response" }
    , { name := "restoreData.request" }
    , { name := "restoreData.response" }
    , { name := "error" } ]

/-- Array.prototype.findIndex: index of the first match, none for -1. -/
def findIndex (p : MessageDecl → Bool) : List MessageDecl → Option Nat
  | [] => none
  | m :: rest => if p m then some 0 else (findIndex p rest).map (· + 1)

/-- Effect of one send call: either nothing was sent (early return on unknown
name) or the message went out on channel slot i. -/
inductive SendOutcome (M : Type) where
  | notSent
  | sent (slot : Nat) (msg : M)
deriving DecidableEq

/-- comms-protocol.js send: findIndex over this.messages by name; if the name
is unknown (index -1) return without sending, else send on channel slot i. -/
def send {M : Type} (name : String) (msg : M) : SendOutcome M :=
  match findIndex (fun m => m.name == name) backupMessages with
  | none => SendOutcome.notSent
  | some i => SendOutcome.sent i msg

/-- Params of the generic failure message. -/
structure ErrParams where
  error : String
  code : Int
deriving DecidableEq

/-- The generic failure message sent on the error channel. -/
structure ErrMsg where
  msgId : Nat
  params : ErrParams
deriving DecidableEq

/-- Observable effects of one inbound dispatch: generic failure sends made,
events emitted, and events for which a registered listener actually ran. -/
structure DispatchResult where
  errorSends : List (SendOutcome ErrMsg)
  emitted : List String
  handled : List String
deriving DecidableEq

/-- comms-protocol.js handleRequest: emits the name.request event carrying the
payload and the success and failed reply closures. Node EventEmitter
semantics: emit with no registered listener for the event is a silent no-op
(the event name always ends in .request, never the special error name), so a
listener runs only when one is registered. -/
def commsHandleRequest (listeners : String → Bool) (name : String) : DispatchResult :=
  { errorSends := []
    emitted := [name ++ ".request"]
    handled := if listeners (name ++ ".request") then [name ++ ".request"] else [] }

/-- backup-protocol.js handleRequest: if the message carries a signature,
verify it against the channel transcript and this.sharedSecret; on failure
send the generic failure { error: Bad signature, code: 401 } and return
without calling super; otherwise defer to the base class handleRequest. -/
def backupHandleRequest {P : Type} (H : Bytes → Bytes → Bytes)
    (sharedSecret channelHash : Bytes) (listeners : String → Bool)
    (name : String) (msg : InMessage P) : DispatchResult :=
  match msg.signature with
  | some sig =>
      if verifySignature H channelHash sharedSecret sig then
        commsHandleRequest listeners name
      else
        { errorSends := [send "error"
            { msgId := msg.msgId, params := { error := "Bad signature", code := 401 } }]
          emitted := []
          handled := [] }
  | none => commsHandleRequest listeners name

/-- Listener registry with no handler registered for any event. -/
def noListeners : String → Bool := fun _ => false

/-- Outbound message shape: the signature field is optional on the wire. -/
structure OutMessage (P : Type) where
  msgId : Nat
  params : P
  signature : Option Signature
deriving DecidableEq

/-- backup-protocol.js _requestResponse, message construction: the message
handed to send is { msgId: id, params: data, signature } where signature is
always computed by _getSignature from the connection handshake hash and the
current this.sharedSecret (initialised to the empty string by the
constructor and only changed by setSecret); there is no unsigned path. -/
def requestMessage {P : Type} (H : Bytes → Bytes → Bytes)
    (sharedSecret handshakeHash : Bytes) (id now : Nat) (data : P) : OutMessage P :=
  { msgId := id
    params := data
    signature := some (getSignature H handshakeHash sharedSecret now) }

/-- Lowercase letter test of the category regex character class a-z. -/
def isLowerAlpha (c : Char) : Bool :=
  decide ('a' ≤ c) && decide (c ≤ 'z')

/-- Matching automaton of the category regex with anchors, one or more
lowercase letters then any number of groups of a dot followed by one or more
lowercase letters. The flag records whether at least one letter of the
current run has been consumed (so a dot or the end of input is allowed). -/
def catAux : Bool → List Char → Bool
  | b, [] => b
  | b, c :: rest =>
      if c = '.' then b && catAux false rest
      else isLowerAlpha c && catAux true rest

/-- backup-protocol.js _validateCategory: absent category accepted; otherwise
the string must match the anchored regex, else an InvalidCategory error is
thrown (modelled as Except.error with the thrown message). -/
def validateCategory (name : Option String) : Except String Unit :=
  match name with
  | none => Except.ok ()
  | some s =>
      if catAux false s.data then Except.ok ()
      else Except.error "Invalid category name. Must be lower case a-z and . only."

/-- The error message thrown by _validateCategory. -/
def invalidCategoryMsg : String :=
  "Invalid category name. Must be lower case a-z and . only."

/-- Specification-side reading of the category grammar, straight from the
words of the spec: one or more runs of lowercase letters separated by single
dots, no leading or trailing dot, no empty segment. -/
inductive CatSpec : List Char → Prop where
  | last (g : List Char) (hne : g ≠ []) (hlow : ∀ c ∈ g, isLowerAlpha c = true) :
      CatSpec g
  | dot (g rest : List Char) (hne : g ≠ []) (hlow : ∀ c ∈ g, isLowerAlpha c = true)
      (hrest : CatSpec rest) : CatSpec (g ++ '.' :: rest)

theorem hexDigits_injective : ∀ l1 l2 : Bytes, hexDigits l1 = hexDigits l2 → l1 = l2
  | [], [], _ => rfl
  | [], b :: l2, h => by simp [hexDigits] at h
  | b :: l1, [], h => by simp [hexDigits] at h
  | a :: l1, b :: l2, h => by
      have h1 : a / 16 = b / 16 := by simpa [hexDigits] using congrArg (fun l => l.headD 0) h
      have h2 : a % 16 = b % 16 := by
        have := congrArg (fun l => l.tail.headD 0) h
        simpa [hexDigits] using this
      have h3 : hexDigits l1 = hexDigits l2 := by
        have := congrArg (fun l => l.tail.tail) h
        simpa [hexDigits] using this
      have hab : a = b := by
        have ha := Nat.div_add_mod a 16
        have hb := Nat.div_add_mod b 16
        omega
      rw [hab, hexDigits_injective l1 l2 h3]

theorem lenTagHash_injective (k1 m1 k2 m2 : Bytes)
    (h : lenTagHash k1 m1 = lenTagHash k2 m2) : k1 = k2 ∧ m1 = m2 := by
  have hlen : k1.length = k2.length := by
    simpa [lenTagHash] using congrArg (fun l => l.headD 0) h
  have happ : k1 ++ m1 = k2 ++ m2 := by
    simpa [lenTagHash] using congrArg List.tail h
  exact List.append_inj happ hlen

/-- C3: for every transcript and secret, verification of a freshly produced
signature succeeds; and whenever the verifier transcript or secret differs
from the one used at signing time, verification returns false (the keyed hash
H is abstract; the mismatch direction assumes H is injective on key and
message, the idealisation of collision resistance of the 32-byte generic
hash). Verification recomputes the keyed hash over the transcript followed by
the decimal rendering of the carried timestamp and compares hex renderings
for exact equality, returning a Bool rather than throwing. -/
theorem claim_C3_sign_verify (H : Bytes → Bytes → Bytes)
    (hInj : ∀ k1 m1 k2 m2 : Bytes, H k1 m1 = H k2 m2 → k1 = k2 ∧ m1 = m2)
    (t s tv sv : Bytes) (now : Nat) :
    verifySignature H t s (getSignature H t s now) = true ∧
    (tv ≠ t ∨ sv ≠ s → verifySignature H tv sv (getSignature H t s now) = false) := by
  constructor
  · simp [verifySignature, getSignature]
  · intro hne
    cases hv : verifySignature H tv sv (getSignature H t s now) with
    | false => rfl
    | true =>
        exfalso
        have heq : hexDigits (H sv (generateMessageToHash tv now)) =
            hexDigits (H s (generateMessageToHash t now)) := by
          simpa [verifySignature, getSignature] using hv
        have h2 := hexDigits_injective _ _ heq
        have h3 := hInj _ _ _ _ h2
        have hs : sv = s := h3.1
        have ht : tv = t := by simpa [generateMessageToHash] using h3.2
        rcases hne with h | h
        · exact h ht
        · exact h hs

/-- C3 witness: concrete instantiation with the injective hash lenTagHash,
transcript [0], secret [1]; verification succeeds with the signing secret and
fails with the different secret [2]. -/
theorem claim_C3_witness :
    verifySignature lenTagHash [0] [1] (getSignature lenTagHash [0] [1] 5) = true ∧
    verifySignature lenTagHash [0] [2] (getSignature lenTagHash [0] [1] 5) = false :=
  ⟨(claim_C3_sign_verify lenTagHash lenTagHash_injective [0] [1] [0] [2] 5).1,
   (claim_C3_sign_verify lenTagHash lenTagHash_injective [0] [1] [0] [2] 5).2
     (Or.inr (by decide))⟩

/-- C5 counterexample: with no shared secret configured (the constructor
initialises it to the empty string, modelled as the empty byte list) the
message built by _requestResponse still carries a signature, refuting the
part of the claim that says requests are sent without a signature when no
secret was set. -/
theorem claim_C5_counterexample :
    (requestMessage lenTagHash [] [0] 2 5 (0 : Nat)).signature ≠ none := by
  decide

/-- C5 amended: every outbound request built by _requestResponse is signed
unconditionally with the connection transcript and the current sharedSecret
value, which is the empty string when no secret was ever configured; there is
no unsigned-send path. -/
theorem claim_C5_always_signed {P : Type} (H : Bytes → Bytes → Bytes)
    (sharedSecret handshakeHash : Bytes) (id now : Nat) (data : P) :
    (requestMessage H sharedSecret handshakeHash id now data).signature =
      some (getSignature H handshakeHash sharedSecret now) := rfl

theorem findIndex_eq_none {p : MessageDecl → Bool} :
    ∀ l : List MessageDecl, (∀ m ∈ l, p m = false) → findIndex p l = none
  | [], _ => rfl
  | m :: rest, h => by
      have hm := h m (by simp)
      have hr := findIndex_eq_none rest (fun x hx => h x (by simp [hx]))
      simp [findIndex, hm, hr]

theorem findIndex_lt_length {p : MessageDecl → Bool} :
    ∀ (l : List MessageDecl) (i : Nat), findIndex p l = some i → i < l.length
  | [], i, h => by simp [findIndex] at h
  | m :: rest, i, h => by
      by_cases hm : p m
      · simp only [findIndex, if_pos hm, Option.some.injEq] at h
        subst h
        simp
      · simp only [findIndex, if_neg hm, Option.map_eq_some'] at h
        obtain ⟨j, hj, hji⟩ := h
        have hr := findIndex_lt_length rest j hj
        simp only [List.length_cons]
        omega

/-- C10: if a name is not among the registered message names of the protocol,
send returns without sending anything and without error; and whenever send
does transmit, the channel slot index is in bounds of the messages list, so
the out-of-bounds channel-slot access is unreachable for unknown names. -/
theorem claim_C10_unknown_name {M : Type} (name : String) (msg : M) :
    ((∀ m ∈ backupMessages, m.name ≠ name) → send name msg = SendOutcome.notSent) ∧
    (∀ i m2, send name msg = SendOutcome.sent i m2 → i < backupMessages.length) := by
  constructor
  · intro h
    have hf : findIndex (fun m => m.name == name) backupMessages = none :=
      findIndex_eq_none _ (fun m hm => by simpa using h m hm)
    simp [send, hf]
  · intro i m2 hs
    cases hf : findIndex (fun m => m.name == name) backupMessages with
    | none => simp [send, hf] at hs
    | some j =>
        have hj := findIndex_lt_length _ j hf
        simp [send, hf] at hs
        omega

/-- C10 witness: the name bogus is not a registered message name and send
returns the not-sent outcome for it. -/
theorem claim_C10_witness : send "bogus" (0 : Nat) = SendOutcome.notSent :=
  (claim_C10_unknown_name "bogus" 0).1 (by decide)

theorem send_error_slot (m : ErrMsg) : send "error" m = SendOutcome.sent 6 m := by
  have h : findIndex (fun d => d.name == "error") backupMessages = some 6 := by decide
  simp [send, h]

/-- C4: an inbound request carrying a signature that fails verification
against the receiving channel transcript and the configured shared secret is
answered with the generic failure response carrying code 401, and no event is
emitted and no registered handler runs. -/
theorem claim_C4_bad_signature {P : Type} (H : Bytes → Bytes → Bytes)
    (sharedSecret channelHash : Bytes) (listeners : String → Bool)
    (name : String) (msg : InMessage P) (sig : Signature)
    (hsig : msg.signature = some sig)
    (hfail : verifySignature H channelHash sharedSecret sig = false) :
    backupHandleRequest H sharedSecret channelHash listeners name msg =
      { errorSends := [SendOutcome.sent 6
          { msgId := msg.msgId, params := { error := "Bad signature", code := 401 } }]
        emitted := []
        handled := [] } := by
  simp [backupHandleRequest, hsig, hfail, send_error_slot]

/-- C4 witness: a concrete message whose signature tag cannot match the hash
recomputed with secret [1] is rejected with the 401 failure. -/
theorem claim_C4_witness :
    backupHandleRequest lenTagHash [1] [0] noListeners "backupData"
        { msgId := 3, signature := some { timestamp := 5, hash := [9] }, params := (0 : Nat) } =
      { errorSends := [SendOutcome.sent 6
          { msgId := 3, params := { error := "Bad signature", code := 401 } }]
        emitted := []
        handled := [] } :=
  claim_C4_bad_signature lenTagHash [1] [0] noListeners "backupData" _
    { timestamp := 5, hash := [9] } rfl (by decide)

/-- C6 counterexample: an inbound request with no signature, arriving when no
handler is registered for its name, produces no generic failure response at
all (errorSends is empty): the claim that the receiver surfaces a NoHandler
failure to the remote caller is false on the code, which only emits an event
that nobody listens to. -/
theorem claim_C6_counterexample :
    backupHandleRequest lenTagHash [] [] noListeners "backupData"
        { msgId := 3, signature := none, params := (0 : Nat) } =
      { errorSends := []
        emitted := ["backupData.request"]
        handled := [] } := by
  decide

/-- C6 amended: for an inbound request that passes (or carries no) signature
check, if no handler is registered for its name the receiver does not crash
and invokes no handler, but it also sends nothing back: the event is emitted
to an empty listener set and the request is silently dropped, so the remote
caller can only time out. -/
theorem claim_C6_no_handler {P : Type} (H : Bytes → Bytes → Bytes)
    (sharedSecret channelHash : Bytes) (listeners : String → Bool)
    (name : String) (msg : InMessage P)
    (hnol : listeners (name ++ ".request") = false)
    (hok : msg.signature = none ∨
      ∃ sig, msg.signature = some sig ∧
        verifySignature H channelHash sharedSecret sig = true) :
    backupHandleRequest H sharedSecret channelHash listeners name msg =
      { errorSends := [], emitted := [name ++ ".request"], handled := [] } := by
  rcases hok with hnone | ⟨sig, hsig, hver⟩
  · simp [backupHandleRequest, hnone, commsHandleRequest, hnol]
  · simp [backupHandleRequest, hsig, hver, commsHandleRequest, hnol]

/-- C6 witness: concrete unsigned request with an empty listener registry. -/
theorem claim_C6_witness :
    backupHandleRequest lenTagHash [] [] noListeners "restoreData"
        { msgId := 4, signature := none, params := (0 : Nat) } =
      { errorSends := [], emitted := ["restoreData.request"], handled := [] } :=
  claim_C6_no_handler lenTagHash [] [] noListeners "restoreData" _ (by decide) (Or.inl rfl)

theorem ne_dot_of_isLowerAlpha {c : Char} (h : isLowerAlpha c = true) : c ≠ '.' := by
  intro he
  rw [he] at h
  exact absurd h (by decide)

theorem catAux_letters_true : ∀ (g l : List Char), (∀ c ∈ g, isLowerAlpha c = true) →
    catAux true (g ++ l) = catAux true l
  | [], l, _ => rfl
  | c :: g, l, h => by
      have hc := h c (by simp)
      have hne := ne_dot_of_isLowerAlpha hc
      have hr := catAux_letters_true g l (fun x hx => h x (by simp [hx]))
      simp [catAux, hne, hc, hr]

theorem catAux_letters_false (g l : List Char) (hne : g ≠ [])
    (h : ∀ c ∈ g, isLowerAlpha c = true) :
    catAux false (g ++ l) = catAux true l := by
  cases g with
  | nil => exact absurd rfl hne
  | cons c g =>
      have hc := h c (by simp)
      have hcd := ne_dot_of_isLowerAlpha hc
      have hr := catAux_letters_true g l (fun x hx => h x (by simp [hx]))
      simp [catAux, hcd, hc, hr]

theorem catAux_of_catSpec : ∀ l, CatSpec l → catAux false l = true := by
  intro l h
  induction h with
  | last g hne hlow =>
      have h1 := catAux_letters_false g [] hne hlow
      simpa using h1
  | dot g rest hne hlow hrest ih =>
      have h1 := catAux_letters_false g ('.' :: rest) hne hlow
      rw [h1]
      simp [catAux, ih]

theorem catSpec_of_catAux_aux : ∀ (n : Nat) (l : List Char), l.length ≤ n →
    (catAux false l = true → CatSpec l) ∧
    (∀ g, g ≠ [] → (∀ c ∈ g, isLowerAlpha c = true) →
      catAux true l = true → CatSpec (g ++ l)) := by
  intro n
  induction n with
  | zero =>
      intro l hl
      have hnil : l = [] := List.length_eq_zero.mp (Nat.le_zero.mp hl)
      subst hnil
      constructor
      · intro h
        exact absurd h (by decide)
      · intro g hg hlow _
        simpa using CatSpec.last g hg hlow
  | succ n ih =>
      intro l hl
      cases l with
      | nil =>
          constructor
          · intro h
            exact absurd h (by decide)
          · intro g hg hlow _
            simpa using CatSpec.last g hg hlow
      | cons c rest =>
          have hrest : rest.length ≤ n := by
            simpa using Nat.lt_succ_iff.mp (Nat.lt_of_lt_of_le (by simp) hl)
          constructor
          · intro h
            by_cases hc : c = '.'
            · rw [hc] at h
              simp [catAux] at h
            · simp only [catAux, if_neg hc, Bool.and_eq_true] at h
              obtain ⟨h1, h2⟩ := h
              have hs := (ih rest hrest).2 [c] (by simp)
                (by intro x hx; rw [List.mem_singleton] at hx; subst hx; exact h1) h2
              simpa using hs
          · intro g hg hlow h
            by_cases hc : c = '.'
            · subst hc
              simp only [catAux, if_pos rfl, Bool.true_and] at h
              have hs := (ih rest hrest).1 h
              exact CatSpec.dot g rest hg hlow hs
            · simp only [catAux, if_neg hc, Bool.and_eq_true] at h
              obtain ⟨h1, h2⟩ := h
              have hs := (ih rest hrest).2 (g ++ [c]) (by simp)
                (by
                  intro x hx
                  rw [List.mem_append, List.mem_singleton] at hx
                  rcases hx with hx | hx
                  · exact hlow x hx
                  · subst hx; exact h1) h2
              simpa [List.append_assoc] using hs

theorem catAux_iff_catSpec (l : List Char) : catAux false l = true ↔ CatSpec l :=
  ⟨fun h => (catSpec_of_catAux_aux l.length l (le_refl _)).1 h, catAux_of_catSpec l⟩

/-- C7: an absent category is accepted; a present category is accepted
exactly when it consists of one or more runs of lowercase letters separated
by single dots with no leading or trailing dot and no empty segment, and is
rejected with the InvalidCategory error exactly otherwise. The validator is a
pure total function. -/
theorem claim_C7_validate_category (s : String) :
    validateCategory none = Except.ok () ∧
    (validateCategory (some s) = Except.ok () ↔ CatSpec s.data) ∧
    (validateCategory (some s) = Except.error invalidCategoryMsg ↔ ¬ CatSpec s.data) := by
  refine ⟨rfl, ?_, ?_⟩ <;> rw [← catAux_iff_catSpec] <;>
    cases hca : catAux false s.data <;>
      simp [validateCategory, invalidCategoryMsg, hca]

/-- C7 witness: the category a.b is accepted and the category a..b is
rejected with the InvalidCategory error. -/
theorem claim_C7_witness :
    validateCategory (some "a.b") = Except.ok () ∧
    validateCategory (some "a..b") = Except.error invalidCategoryMsg :=
  ⟨(claim_C7_validate_category "a.b").2.1.mpr
      ((catAux_iff_catSpec _).mp (by decide)),
   (claim_C7_validate_category "a..b").2.2.mpr
      (fun h => absurd (catAux_of_catSpec _ h) (by decide))⟩

theorem updF_self {α : Type} (f : Nat → α) (i : Nat) (a : α) : updF f i a i = a := by
  simp [updF]

theorem updF_ne {α : Type} (f : Nat → α) (i j : Nat) (a : α) (h : j ≠ i) :
    updF f i a j = f j := by
  simp [updF, h]

theorem settle_of_ne_waiting {M E : Type} (p o : PState M E)
    (h : p ≠ PState.waiting) : settle p o = p := by
  cases p with
  | waiting => exact absurd rfl h
  | fulfilled m => rfl
  | rejected e => rfl

theorem step_request {M E : Type} (s : TrackerState M E) (now ms : Nat) :
    step s (Event.request now ms) =
      { nextMessageId := s.nextMessageId + 1
        pending := s.pending ++ [{ msgId := s.nextMessageId + 1, expires := now + ms }]
        promise := updF s.promise (s.nextMessageId + 1) PState.waiting
        timers := updF s.timers (s.nextMessageId + 1) (some ms)
        successCalls := s.successCalls
        failedCalls := s.failedCalls } := rfl

theorem step_fire_none {M E : Type} (s : TrackerState M E) (id : Nat)
    (h : s.timers id = none) : step s (Event.fire id) = s := by
  simp [step, h]

theorem step_fire_some {M E : Type} (s : TrackerState M E) (id ms : Nat)
    (h : s.timers id = some ms) :
    step s (Event.fire id) =
      { s with
        timers := updF s.timers id none
        promise := updF s.promise id
          (settle (s.promise id) (PState.rejected (CommsErr.timedOut ms))) } := by
  simp [step, h]

theorem step_complete_none {M E : Type} (s : TrackerState M E) (id : Nat) (msg : M)
    (err : Option E) (now : Nat)
    (h : s.pending.find? (fun q => q.msgId == id) = none) :
    step s (Event.complete id msg err now) = s := by
  cases err <;> simp [step, h]

theorem step_complete_found_some {M E : Type} (s : TrackerState M E) (id : Nat)
    (msg : M) (e2 : E) (now : Nat) (p : PendingEntry)
    (h : s.pending.find? (fun q => q.msgId == id) = some p) :
    step s (Event.complete id msg (some e2) now) =
      { s with
        pending := s.pending.filter (keepEntry id now)
        timers := updF s.timers id none
        promise := updF s.promise id
          (settle (s.promise id) (PState.rejected (CommsErr.remote e2)))
        failedCalls := updF s.failedCalls id (s.failedCalls id + 1) } := by
  simp [step, h]

theorem step_complete_found_none {M E : Type} (s : TrackerState M E) (id : Nat)
    (msg : M) (now : Nat) (p : PendingEntry)
    (h : s.pending.find? (fun q => q.msgId == id) = some p) :
    step s (Event.complete id msg none now) =
      { s with
        pending := s.pending.filter (keepEntry id now)
        timers := updF s.timers id none
        promise := updF s.promise id (settle (s.promise id) (PState.fulfilled msg))
        successCalls := updF s.successCalls id (s.successCalls id + 1) } := by
  simp [step, h]

theorem keepEntry_true_iff (id now : Nat) (q : PendingEntry) :
    keepEntry id now q = true ↔ q.msgId ≠ id ∧ now ≤ q.expires := by
  unfold keepEntry
  rw [Bool.and_eq_true, bne_iff_ne, decide_eq_true_eq]

theorem inv_init (M E : Type) : Inv (initState M E) := by
  refine ⟨?_, ?_, ?_, ?_, ?_⟩ <;> simp [initState]

theorem inv_step {M E : Type} (s : TrackerState M E) (e : Event M E) (hs : Inv s) :
    Inv (step s e) := by
  obtain ⟨h1, h2, h3, h4, h5⟩ := hs
  cases e with
  | request now ms =>
      rw [step_request]
      refine ⟨?_, ?_, h3, ?_, ?_⟩
      · intro p hp
        rw [List.mem_append, List.mem_singleton] at hp
        rcases hp with hp | hp
        · exact Nat.le_succ_of_le (h1 p hp)
        · subst hp
          exact Nat.le_refl _
      · rw [List.pairwise_append]
        refine ⟨h2, List.pairwise_singleton _ _, ?_⟩
        intro a ha b hb
        rw [List.mem_singleton] at hb
        subst hb
        have hle := h1 a ha
        show a.msgId ≠ s.nextMessageId + 1
        omega
      · intro p hp
        rw [List.mem_append, List.mem_singleton] at hp
        rcases hp with hp | hp
        · exact h4 p hp
        · subst hp
          show s.successCalls (s.nextMessageId + 1) = 0 ∧
            s.failedCalls (s.nextMessageId + 1) = 0
          exact ⟨(h5 _ (Nat.lt_succ_self _)).1, (h5 _ (Nat.lt_succ_self _)).2.1⟩
      · intro id hid
        have hid2 : s.nextMessageId + 1 < id := hid
        have h5i := h5 id (by omega)
        have hne : id ≠ s.nextMessageId + 1 := by omega
        refine ⟨h5i.1, h5i.2.1, ?_, ?_⟩
        · show updF s.promise (s.nextMessageId + 1) PState.waiting id = PState.waiting
          rw [updF_ne _ _ _ _ hne]
          exact h5i.2.2.1
        · show updF s.timers (s.nextMessageId + 1) (some ms) id = none
          rw [updF_ne _ _ _ _ hne]
          exact h5i.2.2.2
  | fire id =>
      cases htimer : s.timers id with
      | none =>
          rw [step_fire_none s id htimer]
          exact ⟨h1, h2, h3, h4, h5⟩
      | some ms =>
          have hidle : id ≤ s.nextMessageId := by
            by_contra hgt
            push_neg at hgt
            have hnone := (h5 id hgt).2.2.2
            rw [htimer] at hnone
            exact Option.noConfusion hnone
          rw [step_fire_some s id ms htimer]
          refine ⟨h1, h2, h3, h4, ?_⟩
          intro j hj
          have hj2 : s.nextMessageId < j := hj
          have h5j := h5 j hj2
          have hne : j ≠ id := by omega
          refine ⟨h5j.1, h5j.2.1, ?_, ?_⟩
          · show updF s.promise id _ j = PState.waiting
            rw [updF_ne _ _ _ _ hne]
            exact h5j.2.2.1
          · show updF s.timers id none j = none
            rw [updF_ne _ _ _ _ hne]
            exact h5j.2.2.2
  | complete id msg err now =>
      cases hfind : s.pending.find? (fun q => q.msgId == id) with
      | none =>
          rw [step_complete_none s id msg err now hfind]
          exact ⟨h1, h2, h3, h4, h5⟩
      | some p =>
          have hmem : p ∈ s.pending := List.mem_of_find?_eq_some hfind
          have hpid : p.msgId = id := by
            have := List.find?_some hfind
            simpa using this
          have hple : id ≤ s.nextMessageId := hpid ▸ h1 p hmem
          have hcnt0 : s.successCalls id = 0 ∧ s.failedCalls id = 0 := hpid ▸ h4 p hmem
          cases err with
          | some e2 =>
              rw [step_complete_found_some s id msg e2 now p hfind]
              refine ⟨?_, ?_, ?_, ?_, ?_⟩
              · intro q hq
                rw [List.mem_filter] at hq
                exact h1 q hq.1
              · exact h2.filter _
              · intro j
                by_cases hji : j = id
                · subst hji
                  show s.successCalls j + updF s.failedCalls j (s.failedCalls j + 1) j ≤ 1
                  rw [updF_self]
                  have ha := hcnt0.1
                  have hb := hcnt0.2
                  omega
                · show s.successCalls j + updF s.failedCalls id (s.failedCalls id + 1) j ≤ 1
                  rw [updF_ne _ _ _ _ hji]
                  exact h3 j
              · intro q hq
                rw [List.mem_filter] at hq
                have hqne : q.msgId ≠ id := ((keepEntry_true_iff id now q).mp hq.2).1
                have h4q := h4 q hq.1
                refine ⟨h4q.1, ?_⟩
                show updF s.failedCalls id (s.failedCalls id + 1) q.msgId = 0
                rw [updF_ne _ _ _ _ hqne]
                exact h4q.2
              · intro j hj
                have hj2 : s.nextMessageId < j := hj
                have h5j := h5 j hj2
                have hne : j ≠ id := by omega
                refine ⟨h5j.1, ?_, ?_, ?_⟩
                · show updF s.failedCalls id (s.failedCalls id + 1) j = 0
                  rw [updF_ne _ _ _ _ hne]
                  exact h5j.2.1
                · show updF s.promise id _ j = PState.waiting
                  rw [updF_ne _ _ _ _ hne]
                  exact h5j.2.2.1
                · show updF s.timers id none j = none
                  rw [updF_ne _ _ _ _ hne]
                  exact h5j.2.2.2
          | none =>
              rw [step_complete_found_none s id msg now p hfind]
              refine ⟨?_, ?_, ?_, ?_, ?_⟩
              · intro q hq
                rw [List.mem_filter] at hq
                exact h1 q hq.1
              · exact h2.filter _
              · intro j
                by_cases hji : j = id
                · subst hji
                  show updF s.successCalls j (s.successCalls j + 1) j + s.failedCalls j ≤ 1
                  rw [updF_self]
                  have ha := hcnt0.1
                  have hb := hcnt0.2
                  omega
                · show updF s.successCalls id (s.successCalls id + 1) j + s.failedCalls j ≤ 1
                  rw [updF_ne _ _ _ _ hji]
                  exact h3 j
              · intro q hq
                rw [List.mem_filter] at hq
                have hqne : q.msgId ≠ id := ((keepEntry_true_iff id now q).mp hq.2).1
                have h4q := h4 q hq.1
                refine ⟨?_, h4q.2⟩
                show updF s.successCalls id (s.successCalls id + 1) q.msgId = 0
                rw [updF_ne _ _ _ _ hqne]
                exact h4q.1
              · intro j hj
                have hj2 : s.nextMessageId < j := hj
                have h5j := h5 j hj2
                have hne : j ≠ id := by omega
                refine ⟨?_, h5j.2.1, ?_, ?_⟩
                · show updF s.successCalls id (s.successCalls id + 1) j = 0
                  rw [updF_ne _ _ _ _ hne]
                  exact h5j.1
                · show updF s.promise id _ j = PState.waiting
                  rw [updF_ne _ _ _ _ hne]
                  exact h5j.2.2.1
                · show updF s.timers id none j = none
                  rw [updF_ne _ _ _ _ hne]
                  exact h5j.2.2.2

theorem inv_foldl {M E : Type} : ∀ (tr : List (Event M E)) (s : TrackerState M E),
    Inv s → Inv (tr.foldl step s)
  | [], _, hs => hs
  | e :: tr, s, hs => inv_foldl tr (step s e) (inv_step s e hs)

theorem inv_run {M E : Type} (tr : List (Event M E)) : Inv (run tr) :=
  inv_foldl tr (initState M E) (inv_init M E)

theorem promise_settled_step {M E : Type} (s : TrackerState M E) (e : Event M E)
    (id : Nat) (hs : Inv s) (hset : s.promise id ≠ PState.waiting) :
    (step s e).promise id = s.promise id := by
  obtain ⟨h1, h2, h3, h4, h5⟩ := hs
  cases e with
  | request now ms =>
      rw [step_request]
      have hne : id ≠ s.nextMessageId + 1 := by
        intro he
        exact hset ((h5 id (by omega)).2.2.1)
      show updF s.promise (s.nextMessageId + 1) PState.waiting id = s.promise id
      rw [updF_ne _ _ _ _ hne]
  | fire fid =>
      cases htimer : s.timers fid with
      | none => rw [step_fire_none s fid htimer]
      | some ms =>
          rw [step_fire_some s fid ms htimer]
          by_cases hfe : id = fid
          · subst hfe
            show updF s.promise id
              (settle (s.promise id) (PState.rejected (CommsErr.timedOut ms))) id =
              s.promise id
            rw [updF_self]
            exact settle_of_ne_waiting _ _ hset
          · show updF s.promise fid _ id = s.promise id
            rw [updF_ne _ _ _ _ hfe]
  | complete cid msg err now =>
      cases hfind : s.pending.find? (fun q => q.msgId == cid) with
      | none => rw [step_complete_none s cid msg err now hfind]
      | some p =>
          cases err with
          | some e2 =>
              rw [step_complete_found_some s cid msg e2 now p hfind]
              by_cases hfe : id = cid
              · subst hfe
                show updF s.promise id
                  (settle (s.promise id) (PState.rejected (CommsErr.remote e2))) id =
                  s.promise id
                rw [updF_self]
                exact settle_of_ne_waiting _ _ hset
              · show updF s.promise cid _ id = s.promise id
                rw [updF_ne _ _ _ _ hfe]
          | none =>
              rw [step_complete_found_none s cid msg now p hfind]
              by_cases hfe : id = cid
              · subst hfe
                show updF s.promise id
                  (settle (s.promise id) (PState.fulfilled msg)) id = s.promise id
                rw [updF_self]
                exact settle_of_ne_waiting _ _ hset
              · show updF s.promise cid _ id = s.promise id
                rw [updF_ne _ _ _ _ hfe]

theorem promise_settled_foldl {M E : Type} :
    ∀ (more : List (Event M E)) (s : TrackerState M E) (id : Nat),
      Inv s → s.promise id ≠ PState.waiting →
      (more.foldl step s).promise id = s.promise id
  | [], _, _, _, _ => rfl
  | e :: more, s, id, hs, hset => by
      have ha := promise_settled_step s e id hs hset
      have hb := promise_settled_foldl more (step s e) id (inv_step s e hs)
        (by rw [ha]; exact hset)
      rw [List.foldl_cons, hb, ha]

/-- C1: for every trace of requests, timer firings and completions on one
protocol instance and every message id, the success and failed closures of
the pending entry for that id are together invoked at most once (never
both); and once the promise of a waiter has settled, no later event, in
particular no completion delivered after the timeout of that request fired,
changes the outcome delivered to the caller (resolve and reject on a settled
promise are no-ops). -/
theorem claim_C1_single_outcome {M E : Type} (tr : List (Event M E)) (id : Nat) :
    (run tr).successCalls id + (run tr).failedCalls id ≤ 1 ∧
    (∀ more, (run tr).promise id ≠ PState.waiting →
      (run (tr ++ more)).promise id = (run tr).promise id) := by
  constructor
  · exact (inv_run tr).2.2.1 id
  · intro more hset
    have hsplit : run (tr ++ more) = more.foldl step (run tr) := by
      simp [run, List.foldl_append]
    rw [hsplit]
    exact promise_settled_foldl more (run tr) id (inv_run tr) hset

/-- C1 witness: after the request of trTimeout timed out (its promise is
already rejected), a late completion for id 2 does not change the delivered
outcome, and the closures were together invoked at most once. -/
theorem claim_C1_witness :
    (run trTimeout).successCalls 2 + (run trTimeout).failedCalls 2 ≤ 1 ∧
    (run (trTimeout ++ [Event.complete 2 7 none 60])).promise 2 =
      (run trTimeout).promise 2 :=
  ⟨(claim_C1_single_outcome trTimeout 2).1,
   (claim_C1_single_outcome trTimeout 2).2 [Event.complete 2 7 none 60] (by decide)⟩

/-- C2 counterexample: a request with a 50 ms deadline and no response: when
the timer fires the caller is rejected with the Timeout CommsError, yet the
entry for its id 2 is still in the pending set afterwards, refuting the part
of the claim that says the entry is removed at the moment the timer fires. -/
theorem claim_C2_counterexample :
    (run trTimeout).promise 2 = PState.rejected (CommsErr.timedOut 50) ∧
    (run trTimeout).pending = [{ msgId := 2, expires := 50 }] ∧
    (run trTimeout).pending.any (fun p => p.msgId == 2) = true := by
  decide

/-- C2 amended: if no completion for an id arrives before the deadline, the
caller receives the Timeout failure when the timer fires, but the pending
entry is not removed at that moment: the firing leaves the pending list
unchanged; expired entries are only swept by a later pendingComplete call
that finds its own target id, after which no remaining entry carries the
completed id or an already-passed deadline. -/
theorem claim_C2_timeout_behaviour {M E : Type} (s : TrackerState M E)
    (id ms : Nat) (msg : M) (err : Option E) (now : Nat) :
    (s.timers id = some ms → s.promise id = PState.waiting →
      (step s (Event.fire id)).promise id =
        PState.rejected (CommsErr.timedOut ms) ∧
      (step s (Event.fire id)).pending = s.pending) ∧
    (∀ p, s.pending.find? (fun q => q.msgId == id) = some p →
      ∀ q ∈ (step s (Event.complete id msg err now)).pending,
        q.msgId ≠ id ∧ now ≤ q.expires) := by
  constructor
  · intro htimer hwait
    rw [step_fire_some s id ms htimer]
    constructor
    · show updF s.promise id
        (settle (s.promise id) (PState.rejected (CommsErr.timedOut ms))) id = _
      rw [updF_self, hwait]
      rfl
    · rfl
  · intro p hfind q hq
    cases err with
    | some e2 =>
        rw [step_complete_found_some s id msg e2 now p hfind] at hq
        simp only [List.mem_filter] at hq
        exact (keepEntry_true_iff id now q).mp hq.2
    | none =>
        rw [step_complete_found_none s id msg now p hfind] at hq
        simp only [List.mem_filter] at hq
        exact (keepEntry_true_iff id now q).mp hq.2

/-- C2 witness: on the state reached by one request (id 2, deadline 50) the
timer firing rejects with Timeout and leaves the pending list unchanged, and
a later found completion at time 60 leaves no entry for id 2 nor any expired
entry behind. -/
theorem claim_C2_witness :
    (step (run trReq) (Event.fire 2)).promise 2 =
      PState.rejected (CommsErr.timedOut 50) ∧
    (step (run trReq) (Event.fire 2)).pending = (run trReq).pending ∧
    ∀ q ∈ (step (run trReq) (Event.complete 2 7 none 60)).pending,
      q.msgId ≠ 2 ∧ 60 ≤ q.expires := by
  have h := claim_C2_timeout_behaviour (run trReq) 2 50 7 none 60
  refine ⟨(h.1 (by decide) (by decide)).1, (h.1 (by decide) (by decide)).2, ?_⟩
  exact h.2 { msgId := 2, expires := 50 } (by decide)

theorem counterAfter_eq (start : Nat) : ∀ k, counterAfter start k = start + k
  | 0 => rfl
  | k + 1 => by
      show (nextId (counterAfter start k)).2 = start + (k + 1)
      rw [counterAfter_eq start k]
      show start + k + 1 = start + (k + 1)
      omega

theorem idAt_eq (start k : Nat) : idAt start k = start + k + 1 := by
  show (nextId (counterAfter start k)).1 = start + k + 1
  rw [counterAfter_eq]
  rfl

/-- C8: each call of nextId returns an identifier strictly greater than every
identifier returned by an earlier call on the same instance; consequently, in
every reachable tracker state the message ids of the currently pending
requests are pairwise distinct. -/
theorem claim_C8_monotone_ids {M E : Type} (start i j : Nat) (h : i < j)
    (tr : List (Event M E)) :
    idAt start i < idAt start j ∧
    (run tr).pending.Pairwise (fun a b => a.msgId ≠ b.msgId) := by
  constructor
  · rw [idAt_eq, idAt_eq]
    omega
  · exact (inv_run tr).2.1

/-- C8 witness: starting from the constructor counter 1 the first returned id
is smaller than the second, and after one request the pending ids are
pairwise distinct. -/
theorem claim_C8_witness :
    idAt 1 0 < idAt 1 1 ∧
    (run trReq).pending.Pairwise (fun a b => a.msgId ≠ b.msgId) :=
  claim_C8_monotone_ids 1 0 1 (by decide) trReq

/-- C9: pendingComplete for an id with no entry in the pending set is a
silent no-op: the whole tracker state is unchanged, so the pending set, the
promises and the closure invocation counters are untouched, and nothing is
sent (pendingComplete performs no send at all). -/
theorem claim_C9_unknown_id_noop {M E : Type} (s : TrackerState M E) (id : Nat)
    (msg : M) (err : Option E) (now : Nat)
    (h : ∀ p ∈ s.pending, p.msgId ≠ id) :
    step s (Event.complete id msg err now) = s := by
  have hf : s.pending.find? (fun q => q.msgId == id) = none := by
    rw [List.find?_eq_none]
    intro p hp
    simpa using h p hp
  exact step_complete_none s id msg err now hf

/-- C9 witness: completing id 5 on the constructor state, whose pending list
is empty, leaves the state untouched. -/
theorem claim_C9_witness :
    step (initState Nat Nat) (Event.complete 5 0 none 0) = initState Nat Nat :=
  claim_C9_unknown_id_noop (initState Nat Nat) 5 0 none 0
    (by intro p hp; simp [initState] at hp)

end BackupClient
